import Mathlib

/-!
Verification development for the EV route-planning backend: a shallow
embedding of the battery-constrained path solvers, the multi-objective
selection layer, the confidence estimator and the escalation pipeline's
accept/reject and retry logic, with theorems settling the specification
claims against the embedded code.

Python floats are modelled as rationals; Python truthiness of numbers
(zero is falsy) and of lists (empty is falsy) is modelled explicitly
where the code relies on it.
-/

set_option maxHeartbeats 1000000

namespace Predictive

/-! ## Data model (backend/models/routing.py) -/

/-- A charging-stop record as emitted by `_create_route_result`. -/
structure ChargingStop where
  station_id : String
  location : ℚ × ℚ
  power_kw : ℚ
  ctype : String
deriving DecidableEq

/-- Result of a routing calculation (`RouteResult` dataclass). -/
structure RouteResult where
  route : List String
  total_distance_km : ℚ
  estimated_time_min : ℚ
  energy_used_kWh : ℚ
  emissions_grams : ℚ
  charging_stops : List ChargingStop
  route_coordinates : List (ℚ × ℚ)
deriving DecidableEq

/-! ## Route-based confidence estimator (backend/app/routing.py,
`_calculate_route_confidence`) -/

/-- `_calculate_route_confidence`: base 0.9, −0.1 if distance > 20 km,
−0.05·(stops−2) if stops > 2, −0.1 if energy > 15 kWh, +0.05 if
distance / max(energy, 0.1) > 15; clamped to [0.1, 1.0]. -/
def calculateRouteConfidence (r : RouteResult) : ℚ :=
  let c0 : ℚ := 9/10
  let c1 := if r.total_distance_km > 20 then c0 - 1/10 else c0
  let stops : ℚ := (r.charging_stops.length : ℚ)
  let c2 := if stops > 2 then c1 - (stops - 2) * (5/100) else c1
  let c3 := if r.energy_used_kWh > 15 then c2 - 1/10 else c2
  let efficiency := r.total_distance_km / max r.energy_used_kWh (1/10)
  let c4 := if efficiency > 15 then c3 + 5/100 else c3
  max (1/10) (min 1 c4)

/-- A route result whose only relevant inputs to the confidence estimator
are distance, energy and the charging-stop list. -/
def mkConfInput (d e : ℚ) (stops : List ChargingStop) : RouteResult :=
  ⟨[], d, 0, e, 0, stops, []⟩

/-! ## Accept/reject rule for a secondary-agent candidate
(backend/app/jobs.py, `compute_route_job`) -/

/-- The part of a secondary-agent response consumed by the accept/reject
step: candidate route, optional improvement score, optional candidate
duration metric. -/
structure AgentRouteResponse where
  route : Option (List String)
  improvement_score : Option ℚ
  duration_s : Option ℚ
deriving DecidableEq

/-- Python truthiness of an optional list: present and non-empty. -/
def truthyList : Option (List String) → Bool
  | none => false
  | some l => !l.isEmpty

/-- The accept decision of `compute_route_job` for a returned secondary
candidate: requires a truthy candidate route; accepts on
`improvement_score ≥ 0.02` when the score is present; otherwise accepts
when both duration metrics are truthy (present and nonzero) and
`cand_time < base_time * 0.99`. -/
def acceptAICandidate (base_duration : Option ℚ) (resp : AgentRouteResponse) : Bool :=
  if truthyList resp.route then
    match resp.improvement_score with
    | some s => decide (s ≥ 2/100)
    | none =>
      match base_duration, resp.duration_s with
      | some bt, some ct => decide (bt ≠ 0) && decide (ct ≠ 0) && decide (ct < bt * (99/100))
      | _, _ => false
  else false

/-! ## AI escalation gate (backend/app/ai_client.py, `should_call_ai`) -/

/-- `should_call_ai`: escalate exactly when the algorithmic confidence is
strictly below the configured threshold (default 0.75). -/
def shouldCallAI (ai_confidence_threshold : ℚ) (algo_confidence : ℚ) : Bool :=
  decide (algo_confidence < ai_confidence_threshold)

/-! ## Pareto dominance and filtering (backend/models/optimizer.py) -/

/-- `_dominates`: route1 dominates route2 when it is strictly better in at
least one of time, distance, energy, emissions (all minimized) and worse
in none. -/
def dominates (r1 r2 : RouteResult) : Bool :=
  let pairs : List (ℚ × ℚ) :=
    [(r1.estimated_time_min, r2.estimated_time_min),
     (r1.total_distance_km, r2.total_distance_km),
     (r1.energy_used_kWh, r2.energy_used_kWh),
     (r1.emissions_grams, r2.emissions_grams)]
  let better_in_any := pairs.any (fun p => decide (p.1 < p.2))
  let worse_in_any := pairs.any (fun p => decide (p.1 > p.2))
  better_in_any && !worse_in_any

/-- The non-dominated filter of `pareto_optimization`: keep each candidate
not dominated by any distinct member of the pool. -/
def paretoFront (candidates : List RouteResult) : List RouteResult :=
  candidates.filter (fun c => !(candidates.any (fun o => !(c == o) && dominates o c)))

/-- A candidate with the given time, distance, energy, emissions metrics. -/
def mkCand (t d e em : ℚ) : RouteResult :=
  ⟨[], d, t, e, em, [], []⟩

/-! ## Graph, charging stations and the battery-aware path solvers
(backend/models/routing.py, `AmsterdamRouter`) -/

/-- A charging station record from `_load_charging_stations`. -/
structure Station where
  sid : String
  lat : ℚ
  lon : ℚ
  stype : String
  power_kw : ℚ
deriving DecidableEq

/-- An undirected weighted graph: nodes with coordinates and weighted
edges, as supplied by the graph provider. -/
structure Graph where
  nodes : List (String × ℚ × ℚ)
  edges : List (String × String × ℚ)
deriving DecidableEq

/-- The node identifiers of the graph. -/
def nodeIds (g : Graph) : List String := g.nodes.map (·.1)

/-- `_get_node_coordinates`: the node's coordinates, or (0, 0) when the
identifier is absent from the graph. -/
def nodeCoords (g : Graph) (u : String) : ℚ × ℚ :=
  match g.nodes.find? (fun p => p.1 == u) with
  | some p => (p.2.1, p.2.2)
  | none => (0, 0)

/-- Adjacency with weights, from the edge list (both edge directions). -/
def neighborsW (g : Graph) (u : String) : List (String × ℚ) :=
  g.edges.filterMap (fun e =>
    if e.1 = u then some (e.2.1, e.2.2)
    else if e.2.1 = u then some (e.1, e.2.2)
    else none)

/-- Great-circle distance supplied by the external geodesic library;
modelled as an arbitrary function on coordinate pairs. -/
abbrev GeoDist : Type := ℚ × ℚ → ℚ × ℚ → ℚ

/-- The hard-coded Amsterdam charging stations of
`_load_charging_stations`. -/
def amsterdamStations : List Station :=
  [⟨"CS001", 52.3676, 4.9041, "fast", 50⟩,
   ⟨"CS002", 52.3702, 4.8952, "standard", 22⟩,
   ⟨"CS003", 52.3654, 4.9023, "fast", 50⟩,
   ⟨"CS004", 52.3689, 4.8891, "standard", 22⟩,
   ⟨"CS005", 52.3721, 4.8934, "ultra_fast", 150⟩]

/-- `_find_charging_stops`: all stations within 5 km of the current
node's coordinates. -/
def findChargingStops (gd : GeoDist) (g : Graph) (stations : List Station)
    (current : String) : List Station :=
  stations.filter (fun s => decide (gd (nodeCoords g current) (s.lat, s.lon) ≤ 5))

/-- `_get_node_distance`: geodesic distance between two nodes' coordinates
(with the (0,0) default for identifiers absent from the graph). -/
def getNodeDistance (gd : GeoDist) (g : Graph) (u v : String) : ℚ :=
  gd (nodeCoords g u) (nodeCoords g v)

/-- `_create_route_result`: aggregate distance, energy (0.2 kWh/km), time
(2.5 min/km), emissions (84.5 g/kWh), charging-stop records and route
coordinates for a finalized path. -/
def createRouteResult (g : Graph) (stations : List Station)
    (route : List String) (distance_km : ℚ) (battery_capacity_kwh : ℚ) : RouteResult :=
  let _ := battery_capacity_kwh
  let energy := distance_km * (1/5)
  let time := distance_km * (5/2)
  let emissions := energy * (169/2)
  let stops := route.filterMap (fun n =>
    (stations.find? (fun s => s.sid == n)).map
      (fun s => ChargingStop.mk s.sid (s.lat, s.lon) s.power_kw s.stype))
  let coords := route.filterMap (fun n =>
    if g.nodes.any (fun p => p.1 == n) then some (nodeCoords g n)
    else match stations.find? (fun s => s.sid == n) with
      | some s => some (s.lat, s.lon)
      | none => none)
  ⟨route, distance_km, time, energy, emissions, stops, coords⟩

/-! ### Priority-queue states and min extraction (heapq tuple order) -/

/-- A Dijkstra frontier state `(distance, node, path, battery)`. -/
structure DState where
  dist : ℚ
  node : String
  path : List String
  battery : ℚ
deriving DecidableEq

/-- An A* frontier state `(f_score, distance, node, path, battery)`. -/
structure AState where
  f : ℚ
  dist : ℚ
  node : String
  path : List String
  battery : ℚ
deriving DecidableEq

/-- Code-point comparison of characters (Python string order). -/
def charLtB (a b : Char) : Bool := decide (a.val < b.val)

/-- Lexicographic comparison of lists by the given strict order and
equality tests (Python list order). -/
def listLtB (lt : α → α → Bool) (eqb : α → α → Bool) : List α → List α → Bool
  | [], [] => false
  | [], _ :: _ => true
  | _ :: _, [] => false
  | a :: as, b :: bs => if lt a b then true else if eqb a b then listLtB lt eqb as bs else false

/-- Python string comparison: lexicographic on code points. -/
def strLtB (a b : String) : Bool := listLtB charLtB (fun x y => x == y) a.data b.data

/-- Lexicographic comparison of string lists. -/
def strListLtB (a b : List String) : Bool := listLtB strLtB (fun x y => x == y) a b

/-- heapq tuple order for Dijkstra states: distance, then node, then
path, then battery. -/
def dstateLt (a b : DState) : Bool :=
  if a.dist < b.dist then true
  else if b.dist < a.dist then false
  else if strLtB a.node b.node then true
  else if strLtB b.node a.node then false
  else if strListLtB a.path b.path then true
  else if strListLtB b.path a.path then false
  else decide (a.battery < b.battery)

/-- heapq tuple order for A* states: f-score first, then the Dijkstra
components. -/
def astateLt (a b : AState) : Bool :=
  if a.f < b.f then true
  else if b.f < a.f then false
  else dstateLt ⟨a.dist, a.node, a.path, a.battery⟩ ⟨b.dist, b.node, b.path, b.battery⟩

/-- The minimum of a non-empty collection under a Boolean order. -/
def minBy (lt : α → α → Bool) : α → List α → α
  | m, [] => m
  | m, x :: xs => if lt x m then minBy lt x xs else minBy lt m xs

/-- heappop: extract a minimal element and the remaining entries. -/
def popMinBy [DecidableEq α] (lt : α → α → Bool) : List α → Option (α × List α)
  | [] => none
  | x :: xs => some (minBy lt x xs, (x :: xs).erase (minBy lt x xs))

/-! ### Solver errors -/

/-- Failure modes of a solver call: the two `ValueError` raises of the
source (`InvalidEndpoint`, `NoRouteFound`), and the foreign
`NetworkXError` raised by `graph.neighbors` on an identifier absent from
the graph — which is not a `ValueError`. -/
inductive SolveErr where
  | invalidEndpoint
  | noRouteFound
  | graphError (node : String)
deriving DecidableEq

/-! ### Dijkstra (uninformed mode, `dijkstra_route`) -/

/-- Low-battery charging detours pushed from a popped state: each nearby
station not yet visited, with charge `min(capacity, battery + 20)` and
distance increased by the node distance to the station. -/
def chargePushes (gd : GeoDist) (g : Graph) (stations : List Station)
    (visited : List String) (s : DState) (cap : ℚ) : List DState :=
  (findChargingStops gd g stations s.node).filterMap (fun cs =>
    if visited.contains cs.sid then none
    else some ⟨s.dist + getNodeDistance gd g s.node cs.sid, cs.sid,
      s.path ++ [cs.sid], min cap (s.battery + 20)⟩)

/-- Neighbor expansions from a popped state: each unvisited neighbor whose
edge energy (`weight × 0.2`) the battery can pay. -/
def edgePushes (g : Graph) (visited : List String) (s : DState) : List DState :=
  (neighborsW g s.node).filterMap (fun vw =>
    if visited.contains vw.1 then none
    else if s.battery ≥ vw.2 * (1/5) then
      some ⟨s.dist + vw.2, vw.1, s.path ++ [vw.1], s.battery - vw.2 * (1/5)⟩
    else none)

/-- The main loop of `dijkstra_route`. Fuel-indexed; `none` means the
fuel ran out (a model artifact, never observed with enough fuel). A pop
of the destination finalizes; a visited node is skipped; otherwise the
node is marked visited, low-battery charging detours are pushed, and the
node is expanded — which, as in `graph.neighbors`, fails with a
non-ValueError `graphError` when the node is absent from the graph. -/
def dijkstraLoop (gd : GeoDist) (g : Graph) (stations : List Station)
    (endNode : String) (cap : ℚ) :
    Nat → List DState → List String → Option (Except SolveErr RouteResult)
  | 0, _, _ => none
  | fuel + 1, pq, visited =>
    match popMinBy dstateLt pq with
    | none => some (.error .noRouteFound)
    | some (s, rest) =>
      if s.node = endNode then
        some (.ok (createRouteResult g stations s.path s.dist cap))
      else if visited.contains s.node then
        dijkstraLoop gd g stations endNode cap fuel rest visited
      else
        let rest1 := if s.battery < 5 then
          rest ++ chargePushes gd g stations (s.node :: visited) s cap else rest
        if (nodeIds g).contains s.node then
          dijkstraLoop gd g stations endNode cap fuel
            (rest1 ++ edgePushes g (s.node :: visited) s) (s.node :: visited)
        else some (.error (.graphError s.node))

/-- `dijkstra_route`: endpoint validation, then the battery-aware
uninformed search from `(0, start, [start], current_charge)`. -/
def dijkstraRoute (gd : GeoDist) (g : Graph) (stations : List Station)
    (start endNode : String) (cap charge : ℚ) (fuel : Nat) :
    Option (Except SolveErr RouteResult) :=
  if !(nodeIds g).contains start || !(nodeIds g).contains endNode then
    some (.error .invalidEndpoint)
  else dijkstraLoop gd g stations endNode cap fuel [⟨0, start, [start], charge⟩] []

/-! ### A* (heuristic mode, `astar_route`) -/

/-- Lookup in the `g_scores` dictionary; `none` models the
`float('inf')` default. -/
def gLookup (gs : List (String × ℚ)) (u : String) : Option ℚ :=
  (gs.find? (fun p => p.1 == u)).map (·.2)

/-- Dictionary assignment `g_scores[u] = v`. -/
def gSet (gs : List (String × ℚ)) (u : String) (v : ℚ) : List (String × ℚ) :=
  if gs.any (fun p => p.1 == u) then gs.map (fun p => if p.1 == u then (u, v) else p)
  else gs ++ [(u, v)]

/-- Strict comparison with `none` as `float('inf')`. -/
def optLtB : Option ℚ → Option ℚ → Bool
  | none, _ => false
  | some _, none => true
  | some a, some b => decide (a < b)

/-- A* charging detours: iterate the nearby stations in order, pushing a
station when its tentative g-score `g_scores[current] + new_distance`
improves on the station's stored score, and updating `g_scores` as the
iteration proceeds. A missing `g_scores[current]` is `float('inf')`,
which never improves, so nothing is pushed in that case. -/
def chargePushesAGo (gd : GeoDist) (g : Graph) (endCoords : ℚ × ℚ)
    (visited : List String) (s : AState) (cap : ℚ) :
    List Station → List (String × ℚ) → List AState × List (String × ℚ)
  | [], gs => ([], gs)
  | cs :: more, gs =>
    if visited.contains cs.sid then chargePushesAGo gd g endCoords visited s cap more gs
    else
      match gLookup gs s.node with
      | none => chargePushesAGo gd g endCoords visited s cap more gs
      | some g0 =>
        if optLtB (some (g0 + (s.dist + getNodeDistance gd g s.node cs.sid)))
            (gLookup gs cs.sid) then
          ((⟨g0 + (s.dist + getNodeDistance gd g s.node cs.sid) +
               gd (nodeCoords g cs.sid) endCoords,
             s.dist + getNodeDistance gd g s.node cs.sid, cs.sid, s.path ++ [cs.sid],
             min cap (s.battery + 20)⟩ : AState) ::
            (chargePushesAGo gd g endCoords visited s cap more
              (gSet gs cs.sid (g0 + (s.dist + getNodeDistance gd g s.node cs.sid)))).1,
           (chargePushesAGo gd g endCoords visited s cap more
              (gSet gs cs.sid (g0 + (s.dist + getNodeDistance gd g s.node cs.sid)))).2)
        else chargePushesAGo gd g endCoords visited s cap more gs

/-- A* neighbor expansions: each unvisited, battery-feasible neighbor
whose tentative g-score `g_scores[current] + edge_weight` improves on
the neighbor's stored score, pushed with `f = g + h` and with
`g_scores` updated in iteration order. -/
def edgePushesAGo (gd : GeoDist) (g : Graph) (endCoords : ℚ × ℚ)
    (visited : List String) (s : AState) :
    List (String × ℚ) → List (String × ℚ) → List AState × List (String × ℚ)
  | [], gs => ([], gs)
  | vw :: more, gs =>
    if visited.contains vw.1 then edgePushesAGo gd g endCoords visited s more gs
    else if s.battery ≥ vw.2 * (1/5) then
      match gLookup gs s.node with
      | none => edgePushesAGo gd g endCoords visited s more gs
      | some g0 =>
        if optLtB (some (g0 + vw.2)) (gLookup gs vw.1) then
          ((⟨g0 + vw.2 + gd (nodeCoords g vw.1) endCoords, s.dist + vw.2, vw.1,
             s.path ++ [vw.1], s.battery - vw.2 * (1/5)⟩ : AState) ::
            (edgePushesAGo gd g endCoords visited s more (gSet gs vw.1 (g0 + vw.2))).1,
           (edgePushesAGo gd g endCoords visited s more (gSet gs vw.1 (g0 + vw.2))).2)
        else edgePushesAGo gd g endCoords visited s more gs
    else edgePushesAGo gd g endCoords visited s more gs

/-- The main loop of `astar_route`, carrying the `g_scores` dictionary. -/
def astarLoop (gd : GeoDist) (g : Graph) (stations : List Station)
    (endNode : String) (endCoords : ℚ × ℚ) (cap : ℚ) :
    Nat → List AState → List String → List (String × ℚ) →
    Option (Except SolveErr RouteResult)
  | 0, _, _, _ => none
  | fuel + 1, pq, visited, gs =>
    match popMinBy astateLt pq with
    | none => some (.error .noRouteFound)
    | some (s, rest) =>
      if s.node = endNode then
        some (.ok (createRouteResult g stations s.path s.dist cap))
      else if visited.contains s.node then
        astarLoop gd g stations endNode endCoords cap fuel rest visited gs
      else
        let cpr := if s.battery < 5 then
          chargePushesAGo gd g endCoords (s.node :: visited) s cap
            (findChargingStops gd g stations s.node) gs
        else ([], gs)
        if (nodeIds g).contains s.node then
          let epr := edgePushesAGo gd g endCoords (s.node :: visited) s
            (neighborsW g s.node) cpr.2
          astarLoop gd g stations endNode endCoords cap fuel
            (rest ++ cpr.1 ++ epr.1) (s.node :: visited) epr.2
        else some (.error (.graphError s.node))

/-- `astar_route`: endpoint validation, then the heuristic search from
`(0, 0, start, [start], current_charge)` with `g_scores = {start: 0}`
and the destination's coordinates as the heuristic target. -/
def astarRoute (gd : GeoDist) (g : Graph) (stations : List Station)
    (start endNode : String) (cap charge : ℚ) (fuel : Nat) :
    Option (Except SolveErr RouteResult) :=
  if !(nodeIds g).contains start || !(nodeIds g).contains endNode then
    some (.error .invalidEndpoint)
  else astarLoop gd g stations endNode (nodeCoords g endNode) cap fuel
    [⟨0, 0, start, [start], charge⟩] [] [(start, 0)]

/-! ## Candidate generation and selection entry points
(backend/models/optimizer.py, `MultiObjectiveOptimizer`) -/

/-- Errors of the selection entry points: a propagated solver exception
that is not caught (the foreign graph error), or the distinct
no-candidates `ValueError` raised on an empty pool. -/
inductive OptErr where
  | solverErr (e : SolveErr)
  | noCandidates
deriving DecidableEq

/-- The initial-charge scaling factors of `_generate_route_candidates`. -/
def batteryVariations : List ℚ := [4/5, 9/10, 1, 11/10, 6/5]

/-- Accumulate one solver attempt into the candidate pool: a
`ValueError` outcome (`InvalidEndpoint` / `NoRouteFound`) is swallowed,
a success is appended, a foreign `graphError` propagates, and fuel
exhaustion propagates as `none`. -/
def collectAttempt (acc : Option (Except SolveErr (List RouteResult)))
    (attempt : Option (Except SolveErr RouteResult)) :
    Option (Except SolveErr (List RouteResult)) :=
  match acc with
  | none => none
  | some (.error e) => some (.error e)
  | some (.ok l) =>
    match attempt with
    | none => none
    | some (.ok r) => some (.ok (l ++ [r]))
    | some (.error .invalidEndpoint) => some (.ok l)
    | some (.error .noRouteFound) => some (.ok l)
    | some (.error (.graphError n)) => some (.error (.graphError n))

/-- The solver attempts of `_generate_route_candidates`, in order:
Dijkstra, A*, then Dijkstra reruns with the initial charge scaled by
each factor, skipping scaled values that exceed the capacity. -/
def attemptList (gd : GeoDist) (g : Graph) (stations : List Station)
    (start endNode : String) (cap charge : ℚ) (fuel : Nat) :
    List (Option (Except SolveErr RouteResult)) :=
  [dijkstraRoute gd g stations start endNode cap charge fuel,
   astarRoute gd g stations start endNode cap charge fuel] ++
  batteryVariations.filterMap (fun factor =>
    if charge * factor ≤ cap then
      some (dijkstraRoute gd g stations start endNode cap (charge * factor) fuel)
    else none)

/-- `_generate_route_candidates`: run all attempts, swallowing per-attempt
`ValueError` failures. -/
def generateRouteCandidates (gd : GeoDist) (g : Graph) (stations : List Station)
    (start endNode : String) (cap charge : ℚ) (fuel : Nat) :
    Option (Except SolveErr (List RouteResult)) :=
  (attemptList gd g stations start endNode cap charge fuel).foldl collectAttempt
    (some (.ok []))

/-- `pareto_optimization`: generate the pool, fail with the
no-candidates error exactly on an empty pool, else return the
non-dominated front. -/
def paretoOptimization (gd : GeoDist) (g : Graph) (stations : List Station)
    (start endNode : String) (cap charge : ℚ) (fuel : Nat) :
    Option (Except OptErr (List RouteResult)) :=
  match generateRouteCandidates gd g stations start endNode cap charge fuel with
  | none => none
  | some (.error e) => some (.error (.solverErr e))
  | some (.ok []) => some (.error .noCandidates)
  | some (.ok (c :: cs)) => some (.ok (paretoFront (c :: cs)))

/-- Profile optimization weights (`get_optimization_weights`). -/
structure OptWeights where
  time : ℚ
  distance : ℚ
  energy : ℚ
  cost : ℚ
deriving DecidableEq

/-- `_normalize_value`: clamp `(value − min) / (max − min)` to [0, 1]. -/
def normalizeValue (value minv maxv : ℚ) : ℚ :=
  max 0 (min 1 ((value - minv) / (maxv - minv)))

/-- `_calculate_weighted_score`: weighted sum of the normalized time,
distance, energy and cost (energy × 0.25 EUR/kWh) objectives. -/
def calculateWeightedScore (r : RouteResult) (w : OptWeights) : ℚ :=
  w.time * normalizeValue r.estimated_time_min 10 120 +
  w.distance * normalizeValue r.total_distance_km 1 50 +
  w.energy * normalizeValue r.energy_used_kWh (1/2) 20 +
  w.cost * normalizeValue (r.energy_used_kWh * (1/4)) (1/10) 5

/-- The strict-improvement argmin scan of `weighted_sum_optimization`:
the first candidate with the minimal weighted score wins. -/
def bestByScore (w : OptWeights) (l : List RouteResult) : Option RouteResult :=
  (l.foldl (fun acc c =>
    match acc with
    | none => some (calculateWeightedScore c w, c)
    | some (bs, br) =>
      if calculateWeightedScore c w < bs then some (calculateWeightedScore c w, c)
      else some (bs, br)) none).map (·.2)

/-- `weighted_sum_optimization`: generate the pool, fail with the
no-candidates error exactly on an empty pool, else return the candidate
with the minimal weighted score. -/
def weightedSumOptimization (gd : GeoDist) (g : Graph) (stations : List Station)
    (start endNode : String) (cap charge : ℚ) (fuel : Nat) (w : OptWeights) :
    Option (Except OptErr RouteResult) :=
  match generateRouteCandidates gd g stations start endNode cap charge fuel with
  | none => none
  | some (.error e) => some (.error (.solverErr e))
  | some (.ok []) => some (.error .noCandidates)
  | some (.ok (c :: cs)) =>
    match bestByScore w (c :: cs) with
    | some r => some (.ok r)
    | none => none

/-! ## Retry policy (backend/app/ai_client.py, `_request_with_retries`) -/

/-- A retryable failure of one attempt: a transport error or a non-2xx
HTTP status (both caught by the same handler in the source). -/
inductive AgentErr where
  | transport
  | httpStatus (code : Nat)
deriving DecidableEq

/-- Outcome of the retry wrapper: the final result (`.error` carries the
last stored exception; `none` models the degenerate re-raise when no
attempt ran), the backoff durations slept in order, and the number of
attempts made. -/
structure RetryOutcome (α : Type) where
  result : Except (Option AgentErr) α
  backoffs : List ℚ
  attemptsMade : Nat

/-- The attempt loop of `_request_with_retries`: on failure at attempt
`k`, sleep `base × 2^(k−1)` and continue; on success return immediately;
after the last attempt re-raise the stored exception. -/
def retryGo (req : Nat → Except AgentErr α) (base : ℚ) :
    Nat → Nat → List ℚ → Option AgentErr → RetryOutcome α
  | 0, attempt, slept, last => ⟨.error last, slept, attempt - 1⟩
  | n + 1, attempt, slept, _last =>
    match req attempt with
    | .ok a => ⟨.ok a, slept, attempt⟩
    | .error e => retryGo req base n (attempt + 1) (slept ++ [base * 2 ^ (attempt - 1)]) (some e)

/-- `_request_with_retries` with `maxTries` attempts and base backoff
`base`, starting at attempt 1 with nothing slept and no stored
exception. -/
def requestWithRetries (req : Nat → Except AgentErr α) (maxTries : Nat) (base : ℚ) :
    RetryOutcome α :=
  retryGo req base maxTries 1 [] none

/-! ## Specification predicates and concrete inputs for the theorems -/

/-- The confidence formula on its raw inputs (distance, energy, number of
charging stops); `calculateRouteConfidence` is this function applied to
the route's fields. -/
def confRaw (d e : ℚ) (s : ℕ) : ℚ :=
  let c0 : ℚ := 9/10
  let c1 := if d > 20 then c0 - 1/10 else c0
  let c2 := if (s : ℚ) > 2 then c1 - ((s : ℚ) - 2) * (5/100) else c1
  let c3 := if e > 15 then c2 - 1/10 else c2
  let c4 := if d / max e (1/10) > 15 then c3 + 5/100 else c3
  max (1/10) (min 1 c4)

/-- The pair `(u, v)` is an edge of the graph with weight `w` (in either
stored direction). -/
def isEdge (g : Graph) (u v : String) (w : ℚ) : Prop :=
  ∃ e ∈ g.edges, ((e.1 = u ∧ e.2.1 = v) ∨ (e.1 = v ∧ e.2.1 = u)) ∧ e.2.2 = w

/-- `v` is the identifier of a charging station within 5 km (geodesic) of
node `u`'s coordinates — the precondition for a charging detour. -/
def nearStation (gd : GeoDist) (g : Graph) (stations : List Station) (u v : String) : Prop :=
  ∃ s ∈ stations, s.sid = v ∧ gd (nodeCoords g u) (s.lat, s.lon) ≤ 5

/-- A legal battery-annotated run: starting at node `u` with charge `b`,
traverse the listed nodes and end at node `v` with charge `bv`. Each
step is an edge traversal taken only when the charge covers its energy,
or a charging insertion (only below the 5 kWh threshold) capped at
`min(cap, b + 20)`; the charge is nonnegative at every point. -/
def traceRun (gd : GeoDist) (g : Graph) (stations : List Station) (cap : ℚ) :
    ℚ → String → List String → String → ℚ → Prop
  | b, u, [], v, bv => 0 ≤ b ∧ v = u ∧ bv = b
  | b, u, x :: rest, v, bv => 0 ≤ b ∧
      ((∃ w, isEdge g u x w ∧ w * (1/5) ≤ b ∧
          traceRun gd g stations cap (b - w * (1/5)) x rest v bv) ∨
       (b < 5 ∧ nearStation gd g stations u x ∧
          traceRun gd g stations cap (min cap (b + 20)) x rest v bv))

/-- The battery-state invariant along a path starting at `u` with charge
`b`: at every point the remaining charge is nonnegative, every edge
traversal is taken only when the remaining charge covers its energy
consumption, and every charging insertion yields a charge that does not
exceed the capacity. -/
def batteryTraceInv (gd : GeoDist) (g : Graph) (stations : List Station) (cap : ℚ) :
    ℚ → String → List String → Prop
  | b, _, [] => 0 ≤ b
  | b, u, x :: rest => 0 ≤ b ∧
      ((∃ w, isEdge g u x w ∧ w * (1/5) ≤ b ∧
          batteryTraceInv gd g stations cap (b - w * (1/5)) x rest) ∨
       (b < 5 ∧ nearStation gd g stations u x ∧ min cap (b + 20) ≤ cap ∧
          batteryTraceInv gd g stations cap (min cap (b + 20)) x rest))

/-- A solver attempt that failed with one of the two `ValueError`
outcomes the candidate generator swallows. -/
def isValueFailure (x : Option (Except SolveErr RouteResult)) : Prop :=
  x = some (.error .invalidEndpoint) ∨ x = some (.error .noRouteFound)

/-- A degenerate geodesic model (all distances zero), used for concrete
scenarios that never consult geodesic distances. -/
def gdZero : GeoDist := fun _ _ => 0

/-- The end-to-end scenario graph: nodes P, Q, R with edges P–Q of
weight 3 and Q–R of weight 4. -/
def pqrGraph : Graph :=
  ⟨[("P", 0, 0), ("Q", 0, 0), ("R", 0, 0)], [("P", "Q", 3), ("Q", "R", 4)]⟩

/-! ## Theorems -/

/-! ### C1 — route-based confidence estimator monotonicity -/

theorem calculateRouteConfidence_eq (r : RouteResult) :
    calculateRouteConfidence r =
      confRaw r.total_distance_km r.energy_used_kWh r.charging_stops.length := rfl

theorem confRaw_stops_mono (d e : ℚ) (s1 s2 : ℕ) (h1 : 2 ≤ s1) (h12 : s1 ≤ s2) :
    confRaw d e s2 ≤ confRaw d e s1 := by
  have h1q : (2 : ℚ) ≤ (s1 : ℚ) := by exact_mod_cast h1
  have h12q : (s1 : ℚ) ≤ (s2 : ℚ) := by exact_mod_cast h12
  simp only [confRaw]
  refine max_le_max le_rfl (min_le_min le_rfl ?_)
  split_ifs <;> linarith

theorem confRaw_dist_mono (d1 d2 e : ℚ) (s : ℕ) (h20 : 20 < d1) (h12 : d1 ≤ d2)
    (heff : (15 < d1 / max e (1/10)) ↔ (15 < d2 / max e (1/10))) :
    confRaw d2 e s ≤ confRaw d1 e s := by
  simp only [confRaw]
  refine max_le_max le_rfl (min_le_min le_rfl ?_)
  by_cases he1 : d1 / max e (1/10) > 15
  · have he2 : d2 / max e (1/10) > 15 := heff.mp he1
    rw [if_pos he1, if_pos he2]
    split_ifs <;> linarith
  · have he2 : ¬d2 / max e (1/10) > 15 := fun h => he1 (heff.mpr h)
    rw [if_neg he1, if_neg he2]
    split_ifs <;> linarith

/-- C1 counterexample: with energy and charging stops held fixed,
increasing the distance from 25 km to 35 km (both past 20 km) strictly
increases the route-based confidence, because the larger distance newly
triggers the +0.05 efficiency bonus (35/2 > 15 while 25/2 ≤ 15). -/
theorem route_confidence_distance_counterexample :
    (mkConfInput 25 2 []).energy_used_kWh = (mkConfInput 35 2 []).energy_used_kWh ∧
    (mkConfInput 25 2 []).charging_stops = (mkConfInput 35 2 []).charging_stops ∧
    20 < (mkConfInput 25 2 []).total_distance_km ∧
    (mkConfInput 25 2 []).total_distance_km < (mkConfInput 35 2 []).total_distance_km ∧
    calculateRouteConfidence (mkConfInput 25 2 []) <
      calculateRouteConfidence (mkConfInput 35 2 []) := by
  refine ⟨rfl, rfl, by norm_num [mkConfInput], by norm_num [mkConfInput], ?_⟩
  norm_num [calculateRouteConfidence, mkConfInput, max_def, min_def]

/-- C1 (amended): increasing the number of charging stops past 2 with the
other inputs fixed never increases the route-based confidence; increasing
the distance past 20 km with the other inputs fixed never increases it
provided the efficiency-bonus condition `distance / max(energy, 0.1) > 15`
is unchanged between the two distances (without that proviso the score can
increase — see the counterexample). -/
theorem route_confidence_monotone_amended :
    ∀ r1 r2 : RouteResult,
      (r1.total_distance_km = r2.total_distance_km →
        r1.energy_used_kWh = r2.energy_used_kWh →
        2 ≤ r1.charging_stops.length →
        r1.charging_stops.length ≤ r2.charging_stops.length →
        calculateRouteConfidence r2 ≤ calculateRouteConfidence r1) ∧
      (r1.energy_used_kWh = r2.energy_used_kWh →
        r1.charging_stops.length = r2.charging_stops.length →
        20 < r1.total_distance_km →
        r1.total_distance_km ≤ r2.total_distance_km →
        ((15 < r1.total_distance_km / max r1.energy_used_kWh (1/10)) ↔
         (15 < r2.total_distance_km / max r2.energy_used_kWh (1/10))) →
        calculateRouteConfidence r2 ≤ calculateRouteConfidence r1) := by
  intro r1 r2
  constructor
  · intro hd he h2 h12
    rw [calculateRouteConfidence_eq, calculateRouteConfidence_eq, ← hd, ← he]
    exact confRaw_stops_mono _ _ _ _ h2 h12
  · intro he hs h20 h12 heff
    rw [calculateRouteConfidence_eq, calculateRouteConfidence_eq, ← he, ← hs]
    exact confRaw_dist_mono _ _ _ _ h20 h12 (by rw [he] at heff ⊢; exact heff)

theorem route_confidence_monotone_amended_witness :
    calculateRouteConfidence (mkConfInput 30 2 [⟨"S", (0, 0), 0, ""⟩, ⟨"S", (0, 0), 0, ""⟩, ⟨"S", (0, 0), 0, ""⟩]) ≤
      calculateRouteConfidence (mkConfInput 30 2 [⟨"S", (0, 0), 0, ""⟩, ⟨"S", (0, 0), 0, ""⟩]) :=
  (route_confidence_monotone_amended
    (mkConfInput 30 2 [⟨"S", (0, 0), 0, ""⟩, ⟨"S", (0, 0), 0, ""⟩])
    (mkConfInput 30 2 [⟨"S", (0, 0), 0, ""⟩, ⟨"S", (0, 0), 0, ""⟩, ⟨"S", (0, 0), 0, ""⟩])).1
    rfl rfl (by decide) (by decide)

/-! ### C5 — AI escalation gate -/

/-- C5: `should_call_ai` returns true exactly when the confidence is
strictly below the threshold; at the boundary it returns false. -/
theorem should_call_ai_iff :
    ∀ threshold conf : ℚ,
      (shouldCallAI threshold conf = true ↔ conf < threshold) ∧
      shouldCallAI threshold threshold = false := by
  intro th c
  exact ⟨by simp [shouldCallAI], by simp [shouldCallAI]⟩

/-! ### C4 — Pareto front exactness -/

theorem dominates_self (r : RouteResult) : dominates r r = false := by
  simp [dominates]

/-- C4: for every non-empty pool, the Pareto filter returns exactly the
candidates not dominated by any member of the pool; on the concrete pool
A(10,5,2,10), B(12,4,2,9), C(20,10,5,20) (time, distance, energy,
emissions) the front is [A, B]. -/
theorem pareto_front_exact :
    ∀ pool : List RouteResult, pool ≠ [] →
      (∀ r, r ∈ paretoFront pool ↔ r ∈ pool ∧ ∀ o ∈ pool, dominates o r = false) ∧
      paretoFront [mkCand 10 5 2 10, mkCand 12 4 2 9, mkCand 20 10 5 20] =
        [mkCand 10 5 2 10, mkCand 12 4 2 9] := by
  intro pool _
  refine ⟨fun r => ?_, by decide⟩
  rw [paretoFront, List.mem_filter]
  constructor
  · rintro ⟨hp, hc⟩
    refine ⟨hp, fun o ho => ?_⟩
    by_cases heq : r = o
    · subst heq; exact dominates_self r
    · rw [Bool.not_eq_true', List.any_eq_false] at hc
      have := hc o ho
      simpa [heq] using this
  · rintro ⟨hp, hnd⟩
    refine ⟨hp, ?_⟩
    rw [Bool.not_eq_true', List.any_eq_false]
    intro o ho
    simp [hnd o ho]

theorem pareto_front_exact_witness :
    paretoFront [mkCand 10 5 2 10, mkCand 12 4 2 9, mkCand 20 10 5 20] =
      [mkCand 10 5 2 10, mkCand 12 4 2 9] :=
  (pareto_front_exact [mkCand 10 5 2 10] (by decide)).2

/-! ### C2 — accept/reject rule for a secondary candidate -/

/-- C2 counterexample: a present candidate duration of 0 s is falsy in
the source's truthiness test, so the candidate is rejected even though
`0 < 1200 × 0.99` — the claim's acceptance condition holds. -/
theorem accept_rule_counterexample :
    acceptAICandidate (some 1200) ⟨some ["X"], none, some 0⟩ = false ∧
    (0 : ℚ) < 1200 * (99/100) :=
  ⟨rfl, by norm_num⟩

/-- C2 (amended): with a truthy candidate route, acceptance follows the
claimed rule, with duration metrics required to be present and nonzero
(Python truthiness): accept iff `improvementScore ≥ 0.02` when the score
is present; otherwise accept iff both durations are present and nonzero
and `candDuration < baseDuration × 0.99`; otherwise reject. On the
concrete inputs: base 1200 s with candidate 1180 s accepts, candidate
1195 s rejects. -/
theorem accept_rule_amended :
    ∀ (bd : Option ℚ) (resp : AgentRouteResponse),
      truthyList resp.route = true →
      ((∀ s, resp.improvement_score = some s →
          (acceptAICandidate bd resp = true ↔ 2/100 ≤ s)) ∧
       (resp.improvement_score = none →
          ∀ bt ct, bd = some bt → resp.duration_s = some ct → bt ≠ 0 → ct ≠ 0 →
            (acceptAICandidate bd resp = true ↔ ct < bt * (99/100))) ∧
       (resp.improvement_score = none →
          (bd = none ∨ bd = some 0 ∨ resp.duration_s = none ∨ resp.duration_s = some 0) →
          acceptAICandidate bd resp = false)) ∧
      (∀ rt : List String, rt ≠ [] →
        acceptAICandidate (some 1200) ⟨some rt, none, some 1180⟩ = true ∧
        acceptAICandidate (some 1200) ⟨some rt, none, some 1195⟩ = false) := by
  intro bd resp htr
  obtain ⟨ro, io, du⟩ := resp
  simp only [truthyList] at htr
  refine ⟨⟨?_, ?_, ?_⟩, ?_⟩
  · intro s hs
    simp only at hs
    subst hs
    simp [acceptAICandidate, truthyList, htr, ge_iff_le]
  · intro hnone bt ct hbd hct hbt0 hct0
    simp only at hnone hct
    subst hnone; subst hct; subst hbd
    simp [acceptAICandidate, truthyList, htr, hbt0, hct0]
  · intro hnone hcases
    simp only at hnone
    subst hnone
    rcases hcases with h | h | h | h
    · subst h; cases hdu : du <;> simp [acceptAICandidate, truthyList, htr, hdu]
    · subst h; cases hdu : du <;> simp [acceptAICandidate, truthyList, htr, hdu]
    · simp only at h; subst h; cases hbd : bd <;> simp [acceptAICandidate, truthyList, htr, hbd]
    · simp only at h; subst h; cases hbd : bd <;> simp [acceptAICandidate, truthyList, htr, hbd]
  · intro rt hrt
    have hne : rt.isEmpty = false := by
      cases rt with
      | nil => exact absurd rfl hrt
      | cons a l => rfl
    constructor
    · simp only [acceptAICandidate, truthyList, hne, Bool.not_false, if_true]
      norm_num
    · simp only [acceptAICandidate, truthyList, hne, Bool.not_false, if_true]
      norm_num

theorem accept_rule_amended_witness :
    acceptAICandidate (some 1200) ⟨some ["X"], none, some 1180⟩ = true ∧
    acceptAICandidate (some 1200) ⟨some ["X"], none, some 1195⟩ = false :=
  (accept_rule_amended (some 1200) ⟨some ["X"], none, some 1180⟩ (by decide)).2 ["X"]
    (by decide)

/-! ### C7 — retry policy -/

theorem retryGo_attempts_le (req : Nat → Except AgentErr α) (base : ℚ) :
    ∀ (n a : Nat) (slept : List ℚ) (last : Option AgentErr),
      (retryGo req base n a slept last).attemptsMade ≤ a + n - 1 := by
  intro n
  induction n with
  | zero =>
    intro a slept last
    simp only [retryGo]
    omega
  | succ n ih =>
    intro a slept last
    simp only [retryGo]
    cases hreq : req a with
    | ok v => simp only; omega
    | error e =>
      simp only
      have := ih (a + 1) (slept ++ [base * 2 ^ (a - 1)]) (some e)
      omega

theorem retryGo_fail_then_ok (req : Nat → Except AgentErr α) (base : ℚ) (v : α) :
    ∀ (j n a : Nat) (slept : List ℚ) (last : Option AgentErr),
      j < n →
      (∀ k, a ≤ k → k < a + j → ∃ e, req k = .error e) →
      req (a + j) = .ok v →
      retryGo req base n a slept last =
        ⟨.ok v, slept ++ (List.range j).map (fun i => base * 2 ^ (a + i - 1)), a + j⟩ := by
  intro j
  induction j with
  | zero =>
    intro n a slept last hlt _ hok
    cases n with
    | zero => omega
    | succ m =>
      rw [Nat.add_zero] at hok
      simp only [retryGo, hok, List.range_zero, List.map_nil, List.append_nil,
        Nat.add_zero]
  | succ j ih =>
    intro n a slept last hlt hfail hok
    cases n with
    | zero => omega
    | succ m =>
      obtain ⟨e, he⟩ := hfail a (le_refl a) (by omega)
      simp only [retryGo, he]
      rw [ih m (a + 1) (slept ++ [base * 2 ^ (a - 1)]) (some e) (by omega)
        (fun k hk1 hk2 => hfail k (by omega) (by omega))
        (by rw [show a + 1 + j = a + (j + 1) by omega]; exact hok)]
      congr 1
      · rw [List.append_assoc]
        congr 1
        rw [List.range_succ_eq_map, List.map_cons, List.map_map, List.singleton_append]
        congr 1
        refine List.map_congr_left fun i _ => ?_
        simp only [Function.comp_apply]
        refine congrArg (fun t => base * 2 ^ t) ?_
        omega
      · omega

/-- C7: for the retry wrapper, at most `maxTries` attempts are ever made,
transport errors and non-2xx failures are retried identically, and when
the endpoint fails on attempts `1 .. maxTries−1` (with arbitrary
retryable errors) and succeeds at attempt `maxTries`, the success is
returned after exactly `maxTries` attempts with backoffs
`base × 2^(k−1)` for `k = 1 .. maxTries−1`, whose sum is the total
backoff slept. -/
theorem retry_policy :
    ∀ (α : Type) (req : Nat → Except AgentErr α) (v : α) (maxTries : Nat) (base : ℚ)
      (errf : Nat → AgentErr),
      1 ≤ maxTries →
      (∀ k, 1 ≤ k → k < maxTries → req k = .error (errf k)) →
      req maxTries = .ok v →
      (requestWithRetries req maxTries base).result = .ok v ∧
      (requestWithRetries req maxTries base).attemptsMade = maxTries ∧
      (requestWithRetries req maxTries base).backoffs =
        (List.range (maxTries - 1)).map (fun k => base * 2 ^ k) ∧
      (requestWithRetries req maxTries base).backoffs.sum =
        ((List.range (maxTries - 1)).map (fun k => base * 2 ^ k)).sum ∧
      (∀ req2 : Nat → Except AgentErr α,
        (requestWithRetries req2 maxTries base).attemptsMade ≤ maxTries) := by
  intro α req v m base errf hm hfail hok
  have key := retryGo_fail_then_ok req base v (m - 1) m 1 [] none (by omega)
    (fun k hk1 hk2 => ⟨errf k, hfail k hk1 (by omega)⟩)
    (by rw [show 1 + (m - 1) = m by omega]; exact hok)
  rw [requestWithRetries, key]
  have h3 : ([] : List ℚ) ++ (List.range (m - 1)).map (fun i => base * 2 ^ (1 + i - 1)) =
      (List.range (m - 1)).map (fun k => base * 2 ^ k) := by
    rw [List.nil_append]
    exact List.map_congr_left fun i _ => by
      refine congrArg _ (congrArg _ ?_); omega
  refine ⟨rfl, by show 1 + (m - 1) = m; omega, h3, by rw [show (RetryOutcome.mk
    (Except.ok v) ([] ++ (List.range (m - 1)).map fun i => base * 2 ^ (1 + i - 1))
    (1 + (m - 1)) : RetryOutcome α).backoffs = ([] ++ (List.range (m - 1)).map
    fun i => base * 2 ^ (1 + i - 1)) from rfl, h3], ?_⟩
  intro req2
  have := retryGo_attempts_le req2 base m 1 [] none
  exact this.trans (by omega)

theorem retry_policy_witness :
    (requestWithRetries
      (fun k => if k < 3 then Except.error AgentErr.transport else Except.ok (0 : ℚ))
      3 1).result = Except.ok 0 ∧
    (requestWithRetries
      (fun k => if k < 3 then Except.error AgentErr.transport else Except.ok (0 : ℚ))
      3 1).attemptsMade = 3 :=
  have h := retry_policy ℚ
    (fun k => if k < 3 then Except.error AgentErr.transport else Except.ok (0 : ℚ))
    0 3 1 (fun _ => AgentErr.transport) (by norm_num)
    (by intro k h1 h2; interval_cases k <;> rfl) rfl
  ⟨h.1, h.2.1⟩

/-! ### C6 — candidate generation failure propagation -/

theorem foldl_collect_none (l : List (Option (Except SolveErr RouteResult))) :
    l.foldl collectAttempt none = none := by
  induction l with
  | nil => rfl
  | cons a l ih => simpa [collectAttempt] using ih

theorem foldl_collect_error (l : List (Option (Except SolveErr RouteResult)))
    (e : SolveErr) : l.foldl collectAttempt (some (.error e)) = some (.error e) := by
  induction l with
  | nil => rfl
  | cons a l ih => simpa [collectAttempt] using ih

theorem foldl_collect_ok_nil (l : List (Option (Except SolveErr RouteResult))) :
    ∀ m : List RouteResult,
      (l.foldl collectAttempt (some (.ok m)) = some (.ok []) ↔
        m = [] ∧ ∀ a ∈ l, isValueFailure a) := by
  induction l with
  | nil => intro m; simp [isValueFailure]
  | cons a l ih =>
    intro m
    rcases a with _ | e | r
    · rw [List.foldl_cons]
      show (l.foldl collectAttempt none = some (.ok [])) ↔ _
      rw [foldl_collect_none]
      simp [isValueFailure]
    · rcases e with _ | _ | n
      · rw [List.foldl_cons]
        show (l.foldl collectAttempt (some (.ok m)) = some (.ok [])) ↔ _
        rw [ih m]
        simp [isValueFailure]
      · rw [List.foldl_cons]
        show (l.foldl collectAttempt (some (.ok m)) = some (.ok [])) ↔ _
        rw [ih m]
        simp [isValueFailure]
      · rw [List.foldl_cons]
        show (l.foldl collectAttempt (some (.error (.graphError n))) = some (.ok [])) ↔ _
        rw [foldl_collect_error]
        simp [isValueFailure]
    · rw [List.foldl_cons]
      show (l.foldl collectAttempt (some (.ok (m ++ [r]))) = some (.ok [])) ↔ _
      rw [ih (m ++ [r])]
      simp [isValueFailure]

theorem generate_nil_iff (gd : GeoDist) (g : Graph) (stations : List Station)
    (start endNode : String) (cap charge : ℚ) (fuel : Nat) :
    generateRouteCandidates gd g stations start endNode cap charge fuel = some (.ok []) ↔
      (isValueFailure (dijkstraRoute gd g stations start endNode cap charge fuel) ∧
       isValueFailure (astarRoute gd g stations start endNode cap charge fuel) ∧
       ∀ f ∈ batteryVariations, charge * f ≤ cap →
         isValueFailure (dijkstraRoute gd g stations start endNode cap (charge * f) fuel)) := by
  rw [generateRouteCandidates, foldl_collect_ok_nil]
  simp only [true_and]
  constructor
  · intro h
    refine ⟨h _ (by simp [attemptList]), h _ (by simp [attemptList]), fun f hf hle => ?_⟩
    refine h _ ?_
    simp only [attemptList, List.mem_append, List.mem_filterMap]
    exact Or.inr ⟨f, hf, by rw [if_pos hle]⟩
  · rintro ⟨h1, h2, h3⟩ a ha
    simp only [attemptList, List.mem_append, List.mem_cons, List.mem_singleton,
      List.mem_filterMap, List.not_mem_nil, or_false] at ha
    rcases ha with (rfl | rfl) | ⟨f, hf, hif⟩
    · exact h1
    · exact h2
    · by_cases hle : charge * f ≤ cap
      · rw [if_pos hle] at hif
        cases hif
        exact h3 f hf hle
      · rw [if_neg hle] at hif
        cases hif

theorem pareto_noCandidates_iff (gd : GeoDist) (g : Graph) (stations : List Station)
    (start endNode : String) (cap charge : ℚ) (fuel : Nat) :
    paretoOptimization gd g stations start endNode cap charge fuel =
        some (.error .noCandidates) ↔
      generateRouteCandidates gd g stations start endNode cap charge fuel =
        some (.ok []) := by
  rw [paretoOptimization]
  cases hg : generateRouteCandidates gd g stations start endNode cap charge fuel with
  | none => simp
  | some x =>
    cases x with
    | error e => simp
    | ok l =>
      cases l with
      | nil => simp
      | cons c cs => simp

theorem weighted_noCandidates_iff (gd : GeoDist) (g : Graph) (stations : List Station)
    (start endNode : String) (cap charge : ℚ) (fuel : Nat) (w : OptWeights) :
    weightedSumOptimization gd g stations start endNode cap charge fuel w =
        some (.error .noCandidates) ↔
      generateRouteCandidates gd g stations start endNode cap charge fuel =
        some (.ok []) := by
  rw [weightedSumOptimization]
  cases hg : generateRouteCandidates gd g stations start endNode cap charge fuel with
  | none => simp
  | some x =>
    cases x with
    | error e => simp
    | ok l =>
      cases l with
      | nil => simp
      | cons c cs =>
        cases hb : bestByScore w (c :: cs) with
        | none => simp [hb]
        | some r => simp [hb]

/-- C6: for both selection entry points, the no-candidates error is
raised exactly when every solver attempt of the candidate generator (the
uninformed run, the heuristic run, and each admissible scaled-initial-
charge rerun with factors 0.8, 0.9, 1.0, 1.1, 1.2 — scaled values
exceeding the capacity are skipped) fails with a swallowed
`ValueError` failure. -/
theorem no_candidates_iff_all_attempts_fail :
    ∀ (gd : GeoDist) (g : Graph) (stations : List Station) (start endNode : String)
      (cap charge : ℚ) (fuel : Nat) (w : OptWeights),
      (paretoOptimization gd g stations start endNode cap charge fuel =
          some (.error .noCandidates) ↔
        (isValueFailure (dijkstraRoute gd g stations start endNode cap charge fuel) ∧
         isValueFailure (astarRoute gd g stations start endNode cap charge fuel) ∧
         ∀ f ∈ batteryVariations, charge * f ≤ cap →
           isValueFailure (dijkstraRoute gd g stations start endNode cap (charge * f) fuel))) ∧
      (weightedSumOptimization gd g stations start endNode cap charge fuel w =
          some (.error .noCandidates) ↔
        (isValueFailure (dijkstraRoute gd g stations start endNode cap charge fuel) ∧
         isValueFailure (astarRoute gd g stations start endNode cap charge fuel) ∧
         ∀ f ∈ batteryVariations, charge * f ≤ cap →
           isValueFailure (dijkstraRoute gd g stations start endNode cap (charge * f) fuel))) :=
  fun gd g stations start endNode cap charge fuel w =>
    ⟨(pareto_noCandidates_iff gd g stations start endNode cap charge fuel).trans
      (generate_nil_iff gd g stations start endNode cap charge fuel),
     (weighted_noCandidates_iff gd g stations start endNode cap charge fuel w).trans
      (generate_nil_iff gd g stations start endNode cap charge fuel)⟩

theorem no_candidates_iff_all_attempts_fail_witness :
    paretoOptimization gdZero ⟨[], []⟩ [] "A" "B" 60 45 1 =
      some (.error .noCandidates) :=
  ((no_candidates_iff_all_attempts_fail gdZero ⟨[], []⟩ [] "A" "B" 60 45 1
    ⟨1, 1, 1, 1⟩).1).mpr ⟨Or.inl rfl, Or.inl rfl, fun _ _ _ => Or.inl rfl⟩

/-! ### Priority-queue and loop-step lemmas -/

theorem minBy_mem (lt : α → α → Bool) : ∀ (m : α) (xs : List α), minBy lt m xs ∈ m :: xs := by
  intro m xs
  induction xs generalizing m with
  | nil => simp [minBy]
  | cons x xs ih =>
    rw [minBy]
    by_cases h : lt x m = true
    · rw [if_pos h]
      exact List.mem_cons_of_mem m (ih x)
    · rw [if_neg h]
      rcases List.mem_cons.mp (ih m) with h1 | h1

      · rw [h1]; exact List.mem_cons_self _ _
      · exact List.mem_cons_of_mem _ (List.mem_cons_of_mem _ h1)

theorem popMinBy_mem [DecidableEq α] (lt : α → α → Bool) (l : List α) (m : α)
    (rest : List α) (h : popMinBy lt l = some (m, rest)) :
    m ∈ l ∧ ∀ t ∈ rest, t ∈ l := by
  cases l with
  | nil => cases h
  | cons x xs =>
    rw [popMinBy] at h
    injection h with h'
    have h1 : minBy lt x xs = m := congrArg Prod.fst h'
    have h2 : (x :: xs).erase (minBy lt x xs) = rest := congrArg Prod.snd h'
    constructor
    · rw [← h1]; exact minBy_mem lt x xs
    · intro t ht
      rw [← h2] at ht
      exact List.mem_of_mem_erase ht

theorem popMinBy_singleton [DecidableEq α] (lt : α → α → Bool) (x : α) :
    popMinBy lt [x] = some (x, []) := by
  rw [popMinBy, show minBy lt x [] = x from rfl, List.erase_cons_head]

theorem dijkstraLoop_succ (gd : GeoDist) (g : Graph) (stations : List Station)
    (endNode : String) (cap : ℚ) (fuel : Nat) (pq : List DState) (visited : List String) :
    dijkstraLoop gd g stations endNode cap (fuel + 1) pq visited =
      match popMinBy dstateLt pq with
      | none => some (.error .noRouteFound)
      | some (s, rest) =>
        if s.node = endNode then
          some (.ok (createRouteResult g stations s.path s.dist cap))
        else if visited.contains s.node then
          dijkstraLoop gd g stations endNode cap fuel rest visited
        else if (nodeIds g).contains s.node then
          dijkstraLoop gd g stations endNode cap fuel
            ((if s.battery < 5 then
                rest ++ chargePushes gd g stations (s.node :: visited) s cap
              else rest) ++ edgePushes g (s.node :: visited) s) (s.node :: visited)
        else some (.error (.graphError s.node)) := rfl

theorem dijkstraLoop_step_pop (gd : GeoDist) (g : Graph) (stations : List Station)
    (endNode : String) (cap : ℚ) (fuel : Nat) (pq : List DState) (visited : List String)
    (s : DState) (rest : List DState) (hpop : popMinBy dstateLt pq = some (s, rest))
    (hne : ¬s.node = endNode) (hvis : ¬visited.contains s.node = true)
    (hnode : (nodeIds g).contains s.node = true) :
    dijkstraLoop gd g stations endNode cap (fuel + 1) pq visited =
      dijkstraLoop gd g stations endNode cap fuel
        ((if s.battery < 5 then
            rest ++ chargePushes gd g stations (s.node :: visited) s cap
          else rest) ++ edgePushes g (s.node :: visited) s) (s.node :: visited) := by
  simp only [dijkstraLoop_succ, hpop]
  rw [if_neg hne, if_neg hvis, if_pos hnode]

theorem dijkstraLoop_step_end (gd : GeoDist) (g : Graph) (stations : List Station)
    (endNode : String) (cap : ℚ) (fuel : Nat) (pq : List DState) (visited : List String)
    (s : DState) (rest : List DState) (hpop : popMinBy dstateLt pq = some (s, rest))
    (hend : s.node = endNode) :
    dijkstraLoop gd g stations endNode cap (fuel + 1) pq visited =
      some (.ok (createRouteResult g stations s.path s.dist cap)) := by
  simp only [dijkstraLoop_succ, hpop]
  rw [if_pos hend]

theorem dijkstraLoop_step_missing (gd : GeoDist) (g : Graph) (stations : List Station)
    (endNode : String) (cap : ℚ) (fuel : Nat) (pq : List DState) (visited : List String)
    (s : DState) (rest : List DState) (hpop : popMinBy dstateLt pq = some (s, rest))
    (hne : ¬s.node = endNode) (hvis : visited.contains s.node = false)
    (hnode : (nodeIds g).contains s.node = false) :
    dijkstraLoop gd g stations endNode cap (fuel + 1) pq visited =
      some (.error (.graphError s.node)) := by
  simp only [dijkstraLoop_succ, hpop]
  rw [if_neg hne, if_neg (show ¬visited.contains s.node = true by rw [hvis]; simp),
    if_neg (show ¬(nodeIds g).contains s.node = true by rw [hnode]; simp)]

/-! ### Push shape lemmas -/

theorem neighborsW_isEdge (g : Graph) (u : String) (vw : String × ℚ)
    (h : vw ∈ neighborsW g u) : isEdge g u vw.1 vw.2 := by
  rw [neighborsW, List.mem_filterMap] at h
  obtain ⟨e, he, heq⟩ := h
  by_cases h1 : e.1 = u
  · rw [if_pos h1] at heq
    cases heq
    exact ⟨e, he, Or.inl ⟨h1, rfl⟩, rfl⟩
  · rw [if_neg h1] at heq
    by_cases h2 : e.2.1 = u
    · rw [if_pos h2] at heq
      cases heq
      exact ⟨e, he, Or.inr ⟨rfl, h2⟩, rfl⟩
    · rw [if_neg h2] at heq
      cases heq

theorem edgePushes_shape (g : Graph) (visited : List String) (s t : DState)
    (h : t ∈ edgePushes g visited s) :
    ∃ v w, isEdge g s.node v w ∧ w * (1/5) ≤ s.battery ∧
      t = ⟨s.dist + w, v, s.path ++ [v], s.battery - w * (1/5)⟩ := by
  rw [edgePushes, List.mem_filterMap] at h
  obtain ⟨vw, hvw, heq⟩ := h
  by_cases h1 : visited.contains vw.1 = true
  · rw [if_pos h1] at heq; cases heq
  · rw [if_neg h1] at heq
    by_cases h2 : s.battery ≥ vw.2 * (1/5)
    · rw [if_pos h2] at heq
      cases heq
      exact ⟨vw.1, vw.2, neighborsW_isEdge g s.node vw hvw, h2, rfl⟩
    · rw [if_neg h2] at heq; cases heq

theorem chargePushes_shape (gd : GeoDist) (g : Graph) (stations : List Station)
    (visited : List String) (s : DState) (cap : ℚ) (t : DState)
    (h : t ∈ chargePushes gd g stations visited s cap) :
    ∃ cs : String, nearStation gd g stations s.node cs ∧
      t = ⟨s.dist + getNodeDistance gd g s.node cs, cs, s.path ++ [cs],
        min cap (s.battery + 20)⟩ := by
  rw [chargePushes, List.mem_filterMap] at h
  obtain ⟨stn, hst, heq⟩ := h
  by_cases h1 : visited.contains stn.sid = true
  · rw [if_pos h1] at heq; cases heq
  · rw [if_neg h1] at heq
    cases heq
    rw [findChargingStops, List.mem_filter] at hst
    exact ⟨stn.sid, ⟨stn, hst.1, rfl, by simpa using hst.2⟩, rfl⟩

/-! ### Battery trace lemmas -/

theorem traceRun_last_nonneg (gd : GeoDist) (g : Graph) (stations : List Station)
    (cap : ℚ) : ∀ (l : List String) (b bv : ℚ) (u v : String),
      traceRun gd g stations cap b u l v bv → 0 ≤ bv := by
  intro l
  induction l with
  | nil =>
    intro b bv u v h
    simp only [traceRun] at h
    obtain ⟨h0, _, hb⟩ := h
    rw [hb]; exact h0
  | cons x rest ih =>
    intro b bv u v h
    simp only [traceRun] at h
    obtain ⟨_, hc⟩ := h
    rcases hc with ⟨w, _, _, htr⟩ | ⟨_, _, htr⟩
    · exact ih _ _ _ _ htr
    · exact ih _ _ _ _ htr

theorem traceRun_imp_inv (gd : GeoDist) (g : Graph) (stations : List Station)
    (cap : ℚ) : ∀ (l : List String) (b bv : ℚ) (u v : String),
      traceRun gd g stations cap b u l v bv →
      batteryTraceInv gd g stations cap b u l := by
  intro l
  induction l with
  | nil =>
    intro b bv u v h
    simp only [traceRun] at h
    simp only [batteryTraceInv]
    exact h.1
  | cons x rest ih =>
    intro b bv u v h
    simp only [traceRun] at h
    simp only [batteryTraceInv]
    obtain ⟨h0, hc⟩ := h
    refine ⟨h0, ?_⟩
    rcases hc with ⟨w, he, hw, htr⟩ | ⟨hb5, hns, htr⟩
    · exact Or.inl ⟨w, he, hw, ih _ _ _ _ htr⟩
    · exact Or.inr ⟨hb5, hns, min_le_left _ _, ih _ _ _ _ htr⟩

theorem traceRun_snoc_edge (gd : GeoDist) (g : Graph) (stations : List Station)
    (cap : ℚ) : ∀ (l : List String) (b bv : ℚ) (u v x : String) (w : ℚ),
      traceRun gd g stations cap b u l v bv → isEdge g v x w → w * (1/5) ≤ bv →
      traceRun gd g stations cap b u (l ++ [x]) x (bv - w * (1/5)) := by
  intro l
  induction l with
  | nil =>
    intro b bv u v x w h he hw
    simp only [traceRun] at h
    obtain ⟨h0, hv, hbv⟩ := h
    subst hv; subst hbv
    simp only [List.nil_append, traceRun]
    exact ⟨by linarith, Or.inl ⟨w, he, hw, by linarith, trivial, rfl⟩⟩
  | cons y rest ih =>
    intro b bv u v x w h he hw
    simp only [traceRun] at h
    simp only [List.cons_append, traceRun]
    obtain ⟨h0, hc⟩ := h
    refine ⟨h0, ?_⟩
    rcases hc with ⟨w2, he2, hw2, htr⟩ | ⟨hb5, hns, htr⟩
    · exact Or.inl ⟨w2, he2, hw2, ih _ _ _ _ _ _ htr he hw⟩
    · exact Or.inr ⟨hb5, hns, ih _ _ _ _ _ _ htr he hw⟩

theorem traceRun_snoc_charge (gd : GeoDist) (g : Graph) (stations : List Station)
    (cap : ℚ) (hcap : 0 ≤ cap) :
    ∀ (l : List String) (b bv : ℚ) (u v x : String),
      traceRun gd g stations cap b u l v bv → bv < 5 →
      nearStation gd g stations v x →
      traceRun gd g stations cap b u (l ++ [x]) x (min cap (bv + 20)) := by
  intro l
  induction l with
  | nil =>
    intro b bv u v x h hb5 hns
    simp only [traceRun] at h
    obtain ⟨h0, hv, hbv⟩ := h
    subst hv; subst hbv
    simp only [List.nil_append, traceRun]
    exact ⟨by linarith, Or.inr ⟨hb5, hns, le_min hcap (by linarith), trivial, trivial⟩⟩
  | cons y rest ih =>
    intro b bv u v x h hb5 hns
    simp only [traceRun] at h
    simp only [List.cons_append, traceRun]
    obtain ⟨h0, hc⟩ := h
    refine ⟨h0, ?_⟩
    rcases hc with ⟨w2, he2, hw2, htr⟩ | ⟨hb52, hns2, htr⟩
    · exact Or.inl ⟨w2, he2, hw2, ih _ _ _ _ _ htr hb5 hns⟩
    · exact Or.inr ⟨hb52, hns2, ih _ _ _ _ _ htr hb5 hns⟩

/-! ### Queue-invariant preservation for the Dijkstra loop -/

theorem dijkstraLoop_invariant (gd : GeoDist) (g : Graph) (stations : List Station)
    (endNode : String) (cap : ℚ) (P : DState → Prop)
    (hedge : ∀ (s : DState) (v : String) (w d : ℚ), P s →
      (nodeIds g).contains s.node = true → isEdge g s.node v w →
      w * (1/5) ≤ s.battery →
      P ⟨d, v, s.path ++ [v], s.battery - w * (1/5)⟩)
    (hcharge : ∀ (s : DState) (cs : String) (d : ℚ), P s →
      (nodeIds g).contains s.node = true → s.battery < 5 →
      nearStation gd g stations s.node cs →
      P ⟨d, cs, s.path ++ [cs], min cap (s.battery + 20)⟩) :
    ∀ (fuel : Nat) (pq : List DState) (visited : List String) (r : RouteResult),
      (∀ s ∈ pq, P s) →
      dijkstraLoop gd g stations endNode cap fuel pq visited = some (.ok r) →
      ∃ s : DState, P s ∧ s.node = endNode ∧
        r = createRouteResult g stations s.path s.dist cap := by
  intro fuel
  induction fuel with
  | zero =>
    intro pq visited r _ h
    exact Option.noConfusion h
  | succ n ih =>
    intro pq visited r hpq h
    rw [dijkstraLoop_succ] at h
    cases hpop : popMinBy dstateLt pq with
    | none => rw [hpop] at h; simp at h
    | some pr =>
      obtain ⟨s, rest⟩ := pr
      simp only [hpop] at h
      obtain ⟨hsmem, hrest⟩ := popMinBy_mem dstateLt pq s rest hpop
      have hPs := hpq s hsmem
      by_cases hend : s.node = endNode
      · rw [if_pos hend] at h
        refine ⟨s, hPs, hend, ?_⟩
        simp only [Option.some.injEq, Except.ok.injEq] at h
        exact h.symm
      · rw [if_neg hend] at h
        by_cases hvis : visited.contains s.node = true
        · rw [if_pos hvis] at h
          exact ih rest visited r (fun t ht => hpq t (hrest t ht)) h
        · rw [if_neg hvis] at h
          by_cases hnode : (nodeIds g).contains s.node = true
          · rw [if_pos hnode] at h
            refine ih _ _ r ?_ h
            intro t ht
            rcases List.mem_append.mp ht with h1 | h2
            · by_cases hb5 : s.battery < 5
              · rw [if_pos hb5] at h1
                rcases List.mem_append.mp h1 with h3 | h4
                · exact hpq t (hrest t h3)
                · obtain ⟨cs, hns, rfl⟩ :=
                    chargePushes_shape gd g stations (s.node :: visited) s cap t h4
                  exact hcharge s cs _ hPs hnode hb5 hns
              · rw [if_neg hb5] at h1
                exact hpq t (hrest t h1)
            · obtain ⟨v, w, hie, hwb, rfl⟩ :=
                edgePushes_shape g (s.node :: visited) s t h2
              exact hedge s v w _ hPs hnode hie hwb
          · rw [if_neg hnode] at h
            simp at h

/-! ### A* loop lemmas -/

theorem astarLoop_succ (gd : GeoDist) (g : Graph) (stations : List Station)
    (endNode : String) (endCoords : ℚ × ℚ) (cap : ℚ) (fuel : Nat)
    (pq : List AState) (visited : List String) (gs : List (String × ℚ)) :
    astarLoop gd g stations endNode endCoords cap (fuel + 1) pq visited gs =
      match popMinBy astateLt pq with
      | none => some (.error .noRouteFound)
      | some (s, rest) =>
        if s.node = endNode then
          some (.ok (createRouteResult g stations s.path s.dist cap))
        else if visited.contains s.node then
          astarLoop gd g stations endNode endCoords cap fuel rest visited gs
        else if (nodeIds g).contains s.node then
          astarLoop gd g stations endNode endCoords cap fuel
            (rest ++
              (if s.battery < 5 then
                chargePushesAGo gd g endCoords (s.node :: visited) s cap
                  (findChargingStops gd g stations s.node) gs
              else ([], gs)).1 ++
              (edgePushesAGo gd g endCoords (s.node :: visited) s (neighborsW g s.node)
                (if s.battery < 5 then
                  chargePushesAGo gd g endCoords (s.node :: visited) s cap
                    (findChargingStops gd g stations s.node) gs
                else ([], gs)).2).1)
            (s.node :: visited)
            (edgePushesAGo gd g endCoords (s.node :: visited) s (neighborsW g s.node)
              (if s.battery < 5 then
                chargePushesAGo gd g endCoords (s.node :: visited) s cap
                  (findChargingStops gd g stations s.node) gs
              else ([], gs)).2).2
        else some (.error (.graphError s.node)) := rfl

theorem astarLoop_step_end (gd : GeoDist) (g : Graph) (stations : List Station)
    (endNode : String) (endCoords : ℚ × ℚ) (cap : ℚ) (fuel : Nat)
    (pq : List AState) (visited : List String) (gs : List (String × ℚ))
    (s : AState) (rest : List AState) (hpop : popMinBy astateLt pq = some (s, rest))
    (hend : s.node = endNode) :
    astarLoop gd g stations endNode endCoords cap (fuel + 1) pq visited gs =
      some (.ok (createRouteResult g stations s.path s.dist cap)) := by
  simp only [astarLoop_succ, hpop]
  rw [if_pos hend]

theorem astarLoop_step_missing (gd : GeoDist) (g : Graph) (stations : List Station)
    (endNode : String) (endCoords : ℚ × ℚ) (cap : ℚ) (fuel : Nat)
    (pq : List AState) (visited : List String) (gs : List (String × ℚ))
    (s : AState) (rest : List AState) (hpop : popMinBy astateLt pq = some (s, rest))
    (hne : ¬s.node = endNode) (hvis : visited.contains s.node = false)
    (hnode : (nodeIds g).contains s.node = false) :
    astarLoop gd g stations endNode endCoords cap (fuel + 1) pq visited gs =
      some (.error (.graphError s.node)) := by
  simp only [astarLoop_succ, hpop]
  rw [if_neg hne, if_neg (show ¬visited.contains s.node = true by rw [hvis]; simp),
    if_neg (show ¬(nodeIds g).contains s.node = true by rw [hnode]; simp)]

theorem findChargingStops_near (gd : GeoDist) (g : Graph) (stations : List Station)
    (u : String) (cs : Station) (h : cs ∈ findChargingStops gd g stations u) :
    nearStation gd g stations u cs.sid := by
  rw [findChargingStops, List.mem_filter] at h
  exact ⟨cs, h.1, rfl, by simpa using h.2⟩

theorem chargePushesAGo_shape (gd : GeoDist) (g : Graph) (endCoords : ℚ × ℚ)
    (visited : List String) (s : AState) (cap : ℚ) :
    ∀ (l : List Station) (gs : List (String × ℚ)) (t : AState),
      t ∈ (chargePushesAGo gd g endCoords visited s cap l gs).1 →
      ∃ cs, cs ∈ l ∧ ∃ fq dq : ℚ,
        t = ⟨fq, dq, cs.sid, s.path ++ [cs.sid], min cap (s.battery + 20)⟩ := by
  intro l
  induction l with
  | nil =>
    intro gs t ht
    rw [chargePushesAGo] at ht
    exact absurd ht (List.not_mem_nil t)
  | cons cs more ih =>
    intro gs t ht
    rw [chargePushesAGo] at ht
    by_cases h1 : visited.contains cs.sid = true
    · rw [if_pos h1] at ht
      obtain ⟨cs2, hm, hrest⟩ := ih gs t ht
      exact ⟨cs2, List.mem_cons_of_mem _ hm, hrest⟩
    · rw [if_neg h1] at ht
      cases hG : gLookup gs s.node with
      | none =>
        simp only [hG] at ht
        obtain ⟨cs2, hm, hrest⟩ := ih gs t ht
        exact ⟨cs2, List.mem_cons_of_mem _ hm, hrest⟩
      | some g0 =>
        simp only [hG] at ht
        by_cases h2 : optLtB (some (g0 + (s.dist + getNodeDistance gd g s.node cs.sid)))
            (gLookup gs cs.sid) = true
        · rw [if_pos h2] at ht
          rcases List.mem_cons.mp ht with h | h
          · exact ⟨cs, List.mem_cons_self _ _, _, _, h⟩
          · obtain ⟨cs2, hm, hrest⟩ := ih _ t h
            exact ⟨cs2, List.mem_cons_of_mem _ hm, hrest⟩
        · rw [if_neg h2] at ht
          obtain ⟨cs2, hm, hrest⟩ := ih gs t ht
          exact ⟨cs2, List.mem_cons_of_mem _ hm, hrest⟩

theorem edgePushesAGo_shape (gd : GeoDist) (g : Graph) (endCoords : ℚ × ℚ)
    (visited : List String) (s : AState) :
    ∀ (l : List (String × ℚ)) (gs : List (String × ℚ)) (t : AState),
      t ∈ (edgePushesAGo gd g endCoords visited s l gs).1 →
      ∃ vw : String × ℚ, vw ∈ l ∧ vw.2 * (1/5) ≤ s.battery ∧ ∃ fq dq : ℚ,
        t = ⟨fq, dq, vw.1, s.path ++ [vw.1], s.battery - vw.2 * (1/5)⟩ := by
  intro l
  induction l with
  | nil =>
    intro gs t ht
    rw [edgePushesAGo] at ht
    exact absurd ht (List.not_mem_nil t)
  | cons vw more ih =>
    intro gs t ht
    rw [edgePushesAGo] at ht
    by_cases h1 : visited.contains vw.1 = true
    · rw [if_pos h1] at ht
      obtain ⟨vw2, hm, hrest⟩ := ih gs t ht
      exact ⟨vw2, List.mem_cons_of_mem _ hm, hrest⟩
    · rw [if_neg h1] at ht
      by_cases hb : s.battery ≥ vw.2 * (1/5)
      · rw [if_pos hb] at ht
        cases hG : gLookup gs s.node with
        | none =>
          simp only [hG] at ht
          obtain ⟨vw2, hm, hrest⟩ := ih gs t ht
          exact ⟨vw2, List.mem_cons_of_mem _ hm, hrest⟩
        | some g0 =>
          simp only [hG] at ht
          by_cases h2 : optLtB (some (g0 + vw.2)) (gLookup gs vw.1) = true
          · rw [if_pos h2] at ht
            rcases List.mem_cons.mp ht with h | h
            · exact ⟨vw, List.mem_cons_self _ _, hb, _, _, h⟩
            · obtain ⟨vw2, hm, hrest⟩ := ih _ t h
              exact ⟨vw2, List.mem_cons_of_mem _ hm, hrest⟩
          · rw [if_neg h2] at ht
            obtain ⟨vw2, hm, hrest⟩ := ih gs t ht
            exact ⟨vw2, List.mem_cons_of_mem _ hm, hrest⟩
      · rw [if_neg hb] at ht
        obtain ⟨vw2, hm, hrest⟩ := ih gs t ht
        exact ⟨vw2, List.mem_cons_of_mem _ hm, hrest⟩

theorem astarLoop_invariant (gd : GeoDist) (g : Graph) (stations : List Station)
    (endNode : String) (endCoords : ℚ × ℚ) (cap : ℚ) (P : AState → Prop)
    (hedge : ∀ (s : AState) (v : String) (w fq dq : ℚ), P s →
      (nodeIds g).contains s.node = true → isEdge g s.node v w →
      w * (1/5) ≤ s.battery →
      P ⟨fq, dq, v, s.path ++ [v], s.battery - w * (1/5)⟩)
    (hcharge : ∀ (s : AState) (csid : String) (fq dq : ℚ), P s →
      (nodeIds g).contains s.node = true → s.battery < 5 →
      nearStation gd g stations s.node csid →
      P ⟨fq, dq, csid, s.path ++ [csid], min cap (s.battery + 20)⟩) :
    ∀ (fuel : Nat) (pq : List AState) (visited : List String)
      (gs : List (String × ℚ)) (r : RouteResult),
      (∀ s ∈ pq, P s) →
      astarLoop gd g stations endNode endCoords cap fuel pq visited gs = some (.ok r) →
      ∃ s : AState, P s ∧ s.node = endNode ∧
        r = createRouteResult g stations s.path s.dist cap := by
  intro fuel
  induction fuel with
  | zero =>
    intro pq visited gs r _ h
    exact Option.noConfusion h
  | succ n ih =>
    intro pq visited gs r hpq h
    rw [astarLoop_succ] at h
    cases hpop : popMinBy astateLt pq with
    | none => rw [hpop] at h; simp at h
    | some pr =>
      obtain ⟨s, rest⟩ := pr
      simp only [hpop] at h
      obtain ⟨hsmem, hrest⟩ := popMinBy_mem astateLt pq s rest hpop
      have hPs := hpq s hsmem
      by_cases hend : s.node = endNode
      · rw [if_pos hend] at h
        refine ⟨s, hPs, hend, ?_⟩
        simp only [Option.some.injEq, Except.ok.injEq] at h
        exact h.symm
      · rw [if_neg hend] at h
        by_cases hvis : visited.contains s.node = true
        · rw [if_pos hvis] at h
          exact ih rest visited gs r (fun t ht => hpq t (hrest t ht)) h
        · rw [if_neg hvis] at h
          by_cases hnode : (nodeIds g).contains s.node = true
          · rw [if_pos hnode] at h
            refine ih _ _ _ r ?_ h
            intro t ht
            rcases List.mem_append.mp ht with h1 | h2
            · rcases List.mem_append.mp h1 with h3 | h4
              · exact hpq t (hrest t h3)
              · by_cases hb5 : s.battery < 5
                · rw [if_pos hb5] at h4
                  obtain ⟨cs, hm, fq, dq, rfl⟩ :=
                    chargePushesAGo_shape gd g endCoords (s.node :: visited) s cap
                      (findChargingStops gd g stations s.node) gs t h4
                  exact hcharge s cs.sid fq dq hPs hnode hb5
                    (findChargingStops_near gd g stations s.node cs hm)
                · rw [if_neg hb5] at h4
                  exact absurd h4 (List.not_mem_nil t)
            · obtain ⟨vw, hm, hwb, fq, dq, rfl⟩ :=
                edgePushesAGo_shape gd g endCoords (s.node :: visited) s
                  (neighborsW g s.node) _ t h2
              exact hedge s vw.1 vw.2 fq dq hPs hnode
                (neighborsW_isEdge g s.node vw hm) hwb
          · rw [if_neg hnode] at h
            simp at h

/-! ### C3 — battery-state invariant -/

/-- C3: every accepted path of `dijkstra_route` or `astar_route` (with
nonnegative initial charge and capacity) admits a battery trace in which
the remaining charge never goes negative, every edge is traversed only
when the remaining charge covers its energy consumption, and every
charging insertion leaves the charge at `min(capacity, battery + 20)`,
which never exceeds the capacity. -/
theorem battery_invariant :
    ∀ (gd : GeoDist) (g : Graph) (stations : List Station) (start endNode : String)
      (cap charge : ℚ) (fuel : Nat),
      0 ≤ charge → 0 ≤ cap →
      (∀ r, dijkstraRoute gd g stations start endNode cap charge fuel = some (.ok r) →
        ∃ tl, r.route = start :: tl ∧ batteryTraceInv gd g stations cap charge start tl) ∧
      (∀ r, astarRoute gd g stations start endNode cap charge fuel = some (.ok r) →
        ∃ tl, r.route = start :: tl ∧ batteryTraceInv gd g stations cap charge start tl) := by
  intro gd g stations start endNode cap charge fuel hch hcap
  constructor
  · intro r h
    rw [dijkstraRoute] at h
    by_cases hep : (!(nodeIds g).contains start || !(nodeIds g).contains endNode) = true
    · rw [if_pos hep] at h; simp at h
    · rw [if_neg hep] at h
      obtain ⟨s, ⟨tl, hpath, htr⟩, _, hr⟩ :=
        dijkstraLoop_invariant gd g stations endNode cap
          (fun s => ∃ tl, s.path = start :: tl ∧
            traceRun gd g stations cap charge start tl s.node s.battery)
          (fun s v w d hP _ hie hwb =>
            match hP with
            | ⟨tl, hpath, htr⟩ =>
              ⟨tl ++ [v], by rw [hpath]; rfl,
                traceRun_snoc_edge gd g stations cap tl charge s.battery start s.node
                  v w htr hie hwb⟩)
          (fun s cs d hP _ hb5 hns =>
            match hP with
            | ⟨tl, hpath, htr⟩ =>
              ⟨tl ++ [cs], by rw [hpath]; rfl,
                traceRun_snoc_charge gd g stations cap hcap tl charge s.battery start
                  s.node cs htr hb5 hns⟩)
          fuel [⟨0, start, [start], charge⟩] [] r
          (fun t ht => by
            simp only [List.mem_singleton] at ht
            subst ht
            exact ⟨[], rfl, by simp only [traceRun]; exact ⟨hch, trivial, trivial⟩⟩)
          h
      refine ⟨tl, ?_,
        traceRun_imp_inv gd g stations cap tl charge s.battery start s.node htr⟩
      rw [hr]
      exact hpath
  · intro r h
    rw [astarRoute] at h
    by_cases hep : (!(nodeIds g).contains start || !(nodeIds g).contains endNode) = true
    · rw [if_pos hep] at h; simp at h
    · rw [if_neg hep] at h
      obtain ⟨s, ⟨tl, hpath, htr⟩, _, hr⟩ :=
        astarLoop_invariant gd g stations endNode (nodeCoords g endNode) cap
          (fun s => ∃ tl, s.path = start :: tl ∧
            traceRun gd g stations cap charge start tl s.node s.battery)
          (fun s v w fq dq hP _ hie hwb =>
            match hP with
            | ⟨tl, hpath, htr⟩ =>
              ⟨tl ++ [v], by rw [hpath]; rfl,
                traceRun_snoc_edge gd g stations cap tl charge s.battery start s.node
                  v w htr hie hwb⟩)
          (fun s csid fq dq hP _ hb5 hns =>
            match hP with
            | ⟨tl, hpath, htr⟩ =>
              ⟨tl ++ [csid], by rw [hpath]; rfl,
                traceRun_snoc_charge gd g stations cap hcap tl charge s.battery start
                  s.node csid htr hb5 hns⟩)
          fuel [⟨0, 0, start, [start], charge⟩] [] [(start, 0)] r
          (fun t ht => by
            simp only [List.mem_singleton] at ht
            subst ht
            exact ⟨[], rfl, by simp only [traceRun]; exact ⟨hch, trivial, trivial⟩⟩)
          h
      refine ⟨tl, ?_,
        traceRun_imp_inv gd g stations cap tl charge s.battery start s.node htr⟩
      rw [hr]
      exact hpath

theorem battery_invariant_witness :
    ∃ tl, (createRouteResult ⟨[("P", 0, 0)], []⟩ [] ["P"] 0 60).route = "P" :: tl ∧
      batteryTraceInv gdZero ⟨[("P", 0, 0)], []⟩ [] 60 45 "P" tl :=
  (battery_invariant gdZero ⟨[("P", 0, 0)], []⟩ [] "P" "P" 60 45 1 (by norm_num)
    (by norm_num)).1 (createRouteResult ⟨[("P", 0, 0)], []⟩ [] ["P"] 0 60) rfl

/-! ### C9 — origin equals destination -/

/-- C9: when origin and destination coincide and the node is in the
graph, both solvers immediately finalize the single-element route with
zero distance, time, energy and emissions. -/
theorem origin_eq_destination :
    ∀ (gd : GeoDist) (g : Graph) (stations : List Station) (start : String)
      (cap charge : ℚ) (f : Nat),
      (nodeIds g).contains start = true →
      (∃ r, dijkstraRoute gd g stations start start cap charge (f + 1) = some (.ok r) ∧
        r.route = [start] ∧ r.total_distance_km = 0 ∧ r.estimated_time_min = 0 ∧
        r.energy_used_kWh = 0 ∧ r.emissions_grams = 0) ∧
      (∃ r, astarRoute gd g stations start start cap charge (f + 1) = some (.ok r) ∧
        r.route = [start] ∧ r.total_distance_km = 0 ∧ r.estimated_time_min = 0 ∧
        r.energy_used_kWh = 0 ∧ r.emissions_grams = 0) := by
  intro gd g stations start cap charge f hc
  constructor
  · refine ⟨createRouteResult g stations [start] 0 cap, ?_, rfl, rfl, ?_, ?_, ?_⟩
    · rw [dijkstraRoute, if_neg (by rw [hc]; simp)]
      rw [dijkstraLoop_step_end gd g stations start cap f
        [⟨0, start, [start], charge⟩] [] ⟨0, start, [start], charge⟩ []
        (popMinBy_singleton dstateLt _) rfl]
    · show (0 : ℚ) * (5/2) = 0; exact zero_mul _
    · show (0 : ℚ) * (1/5) = 0; exact zero_mul _
    · show ((0 : ℚ) * (1/5)) * (169/2) = 0; rw [zero_mul, zero_mul]
  · refine ⟨createRouteResult g stations [start] 0 cap, ?_, rfl, rfl, ?_, ?_, ?_⟩
    · rw [astarRoute, if_neg (by rw [hc]; simp)]
      rw [astarLoop_step_end gd g stations start (nodeCoords g start) cap f
        [⟨0, 0, start, [start], charge⟩] [] [(start, 0)] ⟨0, 0, start, [start], charge⟩ []
        (popMinBy_singleton astateLt _) rfl]
    · show (0 : ℚ) * (5/2) = 0; exact zero_mul _
    · show (0 : ℚ) * (1/5) = 0; exact zero_mul _
    · show ((0 : ℚ) * (1/5)) * (169/2) = 0; rw [zero_mul, zero_mul]

theorem origin_eq_destination_witness :
    (∃ r, dijkstraRoute gdZero pqrGraph amsterdamStations "P" "P" 60 45 1 =
        some (.ok r) ∧
      r.route = ["P"] ∧ r.total_distance_km = 0 ∧ r.estimated_time_min = 0 ∧
      r.energy_used_kWh = 0 ∧ r.emissions_grams = 0) ∧
    (∃ r, astarRoute gdZero pqrGraph amsterdamStations "P" "P" 60 45 1 =
        some (.ok r) ∧
      r.route = ["P"] ∧ r.total_distance_km = 0 ∧ r.estimated_time_min = 0 ∧
      r.energy_used_kWh = 0 ∧ r.emissions_grams = 0) :=
  origin_eq_destination gdZero pqrGraph amsterdamStations "P" 60 45 0 rfl

/-! ### C10 — missing-station charging detours -/

theorem contains_mem {l : List String} {a : String} (h : l.contains a = true) : a ∈ l := by
  simpa using h

theorem pathAll_of_inv (g : Graph) (p : List String) (n : String)
    (h1 : ∀ x ∈ p.dropLast, x ∈ nodeIds g) (h2 : p.getLast? = some n)
    (h3 : n ∈ nodeIds g) : ∀ x ∈ p, x ∈ nodeIds g := by
  intro x hx
  have hne : p ≠ [] := by intro he; rw [he] at h2; cases h2
  have hsplit := List.dropLast_append_getLast hne
  rw [← hsplit] at hx
  rcases List.mem_append.mp hx with h | h
  · exact h1 x h
  · have hx2 : x = p.getLast hne := by simpa using h
    have h4 : p.getLast? = some (p.getLast hne) := List.getLast?_eq_getLast p hne
    rw [h2] at h4
    injection h4 with h5
    rw [hx2, ← h5]
    exact h3

/-- C10: a low-battery detour state whose station identifier is absent
from the graph, when popped before the destination, makes the loop fail
with the foreign (non-`ValueError`) graph error rather than return a
route or raise `NoRouteFound`/`InvalidEndpoint`; consequently every node
of a successfully returned route belongs to the graph, so a
charging-insertion path can never complete through such a station. -/
theorem missing_station_not_value_error :
    ∀ (gd : GeoDist) (g : Graph) (stations : List Station) (endNode : String)
      (endCoords : ℚ × ℚ) (cap : ℚ) (fuel : Nat),
      (∀ (pq : List DState) (visited : List String) (s : DState) (rest : List DState),
        popMinBy dstateLt pq = some (s, rest) → s.node ≠ endNode →
        visited.contains s.node = false → (nodeIds g).contains s.node = false →
        dijkstraLoop gd g stations endNode cap (fuel + 1) pq visited =
          some (.error (.graphError s.node))) ∧
      (∀ (pq : List AState) (visited : List String) (gs : List (String × ℚ))
          (s : AState) (rest : List AState),
        popMinBy astateLt pq = some (s, rest) → s.node ≠ endNode →
        visited.contains s.node = false → (nodeIds g).contains s.node = false →
        astarLoop gd g stations endNode endCoords cap (fuel + 1) pq visited gs =
          some (.error (.graphError s.node))) ∧
      (∀ (start : String) (charge : ℚ) (r : RouteResult),
        dijkstraRoute gd g stations start endNode cap charge fuel = some (.ok r) →
        ∀ x ∈ r.route, x ∈ nodeIds g) ∧
      (∀ (start : String) (charge : ℚ) (r : RouteResult),
        astarRoute gd g stations start endNode cap charge fuel = some (.ok r) →
        ∀ x ∈ r.route, x ∈ nodeIds g) := by
  intro gd g stations endNode endCoords cap fuel
  refine ⟨?_, ?_, ?_, ?_⟩
  · intro pq visited s rest hpop hne hvis hnode
    exact dijkstraLoop_step_missing gd g stations endNode cap fuel pq visited s rest
      hpop hne hvis hnode
  · intro pq visited gs s rest hpop hne hvis hnode
    exact astarLoop_step_missing gd g stations endNode endCoords cap fuel pq visited gs
      s rest hpop hne hvis hnode
  · intro start charge r h x hx
    rw [dijkstraRoute] at h
    by_cases hep : (!(nodeIds g).contains start || !(nodeIds g).contains endNode) = true
    · rw [if_pos hep] at h; simp at h
    · rw [if_neg hep] at h
      simp only [Bool.or_eq_true, Bool.not_eq_true', not_or, Bool.not_eq_false] at hep
      obtain ⟨s, hPs, hend, hr⟩ :=
        dijkstraLoop_invariant gd g stations endNode cap
          (fun s => (∀ y ∈ s.path.dropLast, y ∈ nodeIds g) ∧
            s.path.getLast? = some s.node)
          (fun s v w d hP hmem _ _ => by
            constructor
            · show ∀ y ∈ (s.path ++ [v]).dropLast, y ∈ nodeIds g
              rw [List.dropLast_concat]
              exact pathAll_of_inv g s.path s.node hP.1 hP.2 (contains_mem hmem)
            · show (s.path ++ [v]).getLast? = some v
              exact List.getLast?_concat _)
          (fun s cs d hP hmem _ _ => by
            constructor
            · show ∀ y ∈ (s.path ++ [cs]).dropLast, y ∈ nodeIds g
              rw [List.dropLast_concat]
              exact pathAll_of_inv g s.path s.node hP.1 hP.2 (contains_mem hmem)
            · show (s.path ++ [cs]).getLast? = some cs
              exact List.getLast?_concat _)
          fuel [⟨0, start, [start], charge⟩] [] r
          (fun t ht => by
            simp only [List.mem_singleton] at ht
            subst ht
            exact ⟨by simp, rfl⟩)
          h
      rw [hr] at hx
      refine pathAll_of_inv g s.path s.node hPs.1 hPs.2 ?_ x hx
      rw [hend]
      exact contains_mem hep.2
  · intro start charge r h x hx
    rw [astarRoute] at h
    by_cases hep : (!(nodeIds g).contains start || !(nodeIds g).contains endNode) = true
    · rw [if_pos hep] at h; simp at h
    · rw [if_neg hep] at h
      simp only [Bool.or_eq_true, Bool.not_eq_true', not_or, Bool.not_eq_false] at hep
      obtain ⟨s, hPs, hend, hr⟩ :=
        astarLoop_invariant gd g stations endNode (nodeCoords g endNode) cap
          (fun s => (∀ y ∈ s.path.dropLast, y ∈ nodeIds g) ∧
            s.path.getLast? = some s.node)
          (fun s v w fq dq hP hmem _ _ => by
            constructor
            · show ∀ y ∈ (s.path ++ [v]).dropLast, y ∈ nodeIds g
              rw [List.dropLast_concat]
              exact pathAll_of_inv g s.path s.node hP.1 hP.2 (contains_mem hmem)
            · show (s.path ++ [v]).getLast? = some v
              exact List.getLast?_concat _)
          (fun s csid fq dq hP hmem _ _ => by
            constructor
            · show ∀ y ∈ (s.path ++ [csid]).dropLast, y ∈ nodeIds g
              rw [List.dropLast_concat]
              exact pathAll_of_inv g s.path s.node hP.1 hP.2 (contains_mem hmem)
            · show (s.path ++ [csid]).getLast? = some csid
              exact List.getLast?_concat _)
          fuel [⟨0, 0, start, [start], charge⟩] [] [(start, 0)] r
          (fun t ht => by
            simp only [List.mem_singleton] at ht
            subst ht
            exact ⟨by simp, rfl⟩)
          h
      rw [hr] at hx
      refine pathAll_of_inv g s.path s.node hPs.1 hPs.2 ?_ x hx
      rw [hend]
      exact contains_mem hep.2

theorem missing_station_not_value_error_witness :
    dijkstraLoop gdZero ⟨[("A", 0, 0)], []⟩ [] "B" 60 1
      [⟨0, "CS001", ["A", "CS001"], 20⟩] [] =
      some (.error (.graphError "CS001")) :=
  (missing_station_not_value_error gdZero ⟨[("A", 0, 0)], []⟩ [] "B" (0, 0) 60 0).1
    [⟨0, "CS001", ["A", "CS001"], 20⟩] [] ⟨0, "CS001", ["A", "CS001"], 20⟩ []
    (popMinBy_singleton dstateLt _) (by decide) rfl rfl

/-! ### C8 — end-to-end P→R scenario -/

/-- C8: on the graph {P, Q, R} with edges P–Q (3 km) and Q–R (4 km),
capacity 60 kWh and initial charge 45 kWh, the uninformed solve of P→R
returns the route [P, Q, R] with total distance 7 km, energy 1.4 kWh and
an empty charging-stop list. -/
theorem end_to_end_pqr :
    ∃ r, dijkstraRoute gdZero pqrGraph amsterdamStations "P" "R" 60 45 10 =
        some (.ok r) ∧
      r.route = ["P", "Q", "R"] ∧ r.total_distance_km = 7 ∧
      r.energy_used_kWh = 7/5 ∧ r.charging_stops = [] := by
  have step0 : dijkstraRoute gdZero pqrGraph amsterdamStations "P" "R" 60 45 10 =
      dijkstraLoop gdZero pqrGraph amsterdamStations "R" 60 10
        [⟨0, "P", ["P"], 45⟩] [] := by
    rw [dijkstraRoute, if_neg (by decide)]
  have step1 : dijkstraLoop gdZero pqrGraph amsterdamStations "R" 60 10
      [⟨0, "P", ["P"], 45⟩] [] =
      dijkstraLoop gdZero pqrGraph amsterdamStations "R" 60 9
        [⟨3, "Q", ["P", "Q"], 222/5⟩] ["P"] := by
    rw [show (10 : Nat) = 9 + 1 from rfl,
      dijkstraLoop_step_pop gdZero pqrGraph amsterdamStations "R" 60 9 _ _ _ _
        (popMinBy_singleton dstateLt _) (by decide) (by decide) (by decide)]
    norm_num [edgePushes, neighborsW, pqrGraph, List.filterMap_cons,
      show ("Q" : String) ≠ "P" by decide, show ("R" : String) ≠ "P" by decide]
  have step2 : dijkstraLoop gdZero pqrGraph amsterdamStations "R" 60 9
      [⟨3, "Q", ["P", "Q"], 222/5⟩] ["P"] =
      dijkstraLoop gdZero pqrGraph amsterdamStations "R" 60 8
        [⟨7, "R", ["P", "Q", "R"], 218/5⟩] ["Q", "P"] := by
    rw [show (9 : Nat) = 8 + 1 from rfl,
      dijkstraLoop_step_pop gdZero pqrGraph amsterdamStations "R" 60 8 _ _ _ _
        (popMinBy_singleton dstateLt _) (by decide) (by decide) (by decide)]
    norm_num [edgePushes, neighborsW, pqrGraph, List.filterMap_cons,
      show ("P" : String) ≠ "Q" by decide, show ("R" : String) ≠ "Q" by decide,
      show ("R" : String) ≠ "P" by decide]
  have step3 : dijkstraLoop gdZero pqrGraph amsterdamStations "R" 60 8
      [⟨7, "R", ["P", "Q", "R"], 218/5⟩] ["Q", "P"] =
      some (.ok (createRouteResult pqrGraph amsterdamStations ["P", "Q", "R"] 7 60)) := by
    rw [show (8 : Nat) = 7 + 1 from rfl,
      dijkstraLoop_step_end gdZero pqrGraph amsterdamStations "R" 60 7 _ _ _ _
        (popMinBy_singleton dstateLt _) rfl]
  refine ⟨createRouteResult pqrGraph amsterdamStations ["P", "Q", "R"] 7 60,
    ((step0.trans step1).trans step2).trans step3, rfl, rfl, ?_, rfl⟩
  show (7 : ℚ) * (1/5) = 7/5
  norm_num

end Predictive
